import Mathlib

/-!
Verification of the ESP8266+Mega NBP broadcaster sketch.

This file gives a shallow embedding of the sketch's core logic:
the AT-command response classifier (`sendDataUntil` / the two response
loops of `sendNbpPackage`), the connection-wait loop
(`waitForConnection`), the frequency monitor
(`broadcastFrequencyPing`), the NBP packet builder
(`GetUpdateNbpPackage`), the boot sequence (`setup`) and one iteration
of the control loop (`loop`).

Modelling conventions:
* Bytes that arrive on the serial link before a deadline are modelled
  as a `List Char`; a response loop that exhausts its list without a
  token match is a `Timeout` (the wall-clock deadline abstraction).
* C `float` values are modelled by `FloatQ`: exact fractions (`Frac`,
  an integer numerator/denominator pair, compared by
  cross-multiplication like IEEE value equality) extended with `inf`,
  `negInf` and `nan` following the IEEE-754 rules for the operations
  the sketch performs.  Rounding is idealised away; the non-finite
  propagation, which the sketch can actually hit through its unguarded
  division, is kept.  The single IEEE detail `FloatQ` conflates is the
  sign of zero, which never affects the sketch's computations.
* `unsigned long` subtraction is `ulSub` (wrap-around at 2^32,
  the AVR `unsigned long` width).
* NBP packets are modelled structurally as `List NbpLine` instead of
  concatenated strings: every claim is about which lines appear and in
  which order, not about decimal rendering.
* Randomness (`random(...)`) and `millis()` are inputs to the
  functions that read them.
-/

namespace NbpDriver

set_option maxRecDepth 1000000

set_option maxHeartbeats 1000000

/-- C `unsigned long` subtraction `a - b` (wrap-around at `2^32`). -/
def ulSub (a b : Nat) : Nat := (a % 2 ^ 32 + (2 ^ 32 - b % 2 ^ 32)) % 2 ^ 32

/-- An exact (unnormalised) fraction `num / den`.  Every `Frac` the
embedding produces from nonzero divisors has `den ≠ 0`. -/
structure Frac where
  num : Int
  den : Int
deriving DecidableEq

/-- Negation. -/
def Frac.neg (a : Frac) : Frac := ⟨-a.num, a.den⟩

/-- Addition (no normalisation). -/
def Frac.add (a b : Frac) : Frac := ⟨a.num * b.den + b.num * a.den, a.den * b.den⟩

/-- Subtraction. -/
def Frac.sub (a b : Frac) : Frac := a.add b.neg

/-- Division (no normalisation; meaningful when the divisor's value is
nonzero). -/
def Frac.div (a b : Frac) : Frac := ⟨a.num * b.den, a.den * b.num⟩

/-- Value equality by cross-multiplication (IEEE `==` on finite
values, given nonzero denominators). -/
def Frac.beqv (a b : Frac) : Bool := a.num * b.den == b.num * a.den

/-- The rational value of a fraction. -/
def Frac.val (a : Frac) : ℚ := (a.num : ℚ) / (a.den : ℚ)

/-- Embed an integer. -/
def Frac.ofInt (n : Int) : Frac := ⟨n, 1⟩

theorem Frac.val_ofInt (n : Int) : (Frac.ofInt n).val = (n : ℚ) := by
  simp [Frac.ofInt, Frac.val]

theorem Frac.val_neg (a : Frac) : a.neg.val = -a.val := by
  simp [Frac.neg, Frac.val, neg_div]

theorem Frac.val_add (a b : Frac) (ha : a.den ≠ 0) (hb : b.den ≠ 0) :
    (a.add b).val = a.val + b.val := by
  have ha' : (a.den : ℚ) ≠ 0 := Int.cast_ne_zero.mpr ha
  have hb' : (b.den : ℚ) ≠ 0 := Int.cast_ne_zero.mpr hb
  simp only [Frac.add, Frac.val]
  push_cast
  field_simp

theorem Frac.val_sub (a b : Frac) (ha : a.den ≠ 0) (hb : b.den ≠ 0) :
    (a.sub b).val = a.val - b.val := by
  have : b.neg.den = b.den := rfl
  rw [Frac.sub, Frac.val_add a b.neg ha (this ▸ hb), Frac.val_neg, sub_eq_add_neg]

theorem Frac.val_div (a b : Frac) (ha : a.den ≠ 0) (hb : b.den ≠ 0) (hbn : b.num ≠ 0) :
    (a.div b).val = a.val / b.val := by
  have ha' : (a.den : ℚ) ≠ 0 := Int.cast_ne_zero.mpr ha
  have hb' : (b.den : ℚ) ≠ 0 := Int.cast_ne_zero.mpr hb
  have hbn' : (b.num : ℚ) ≠ 0 := Int.cast_ne_zero.mpr hbn
  simp only [Frac.div, Frac.val]
  push_cast
  field_simp

theorem Frac.beqv_true_iff (a b : Frac) (ha : a.den ≠ 0) (hb : b.den ≠ 0) :
    a.beqv b = true ↔ a.val = b.val := by
  have ha' : (a.den : ℚ) ≠ 0 := Int.cast_ne_zero.mpr ha
  have hb' : (b.den : ℚ) ≠ 0 := Int.cast_ne_zero.mpr hb
  simp only [Frac.beqv, beq_iff_eq, Frac.val]
  rw [div_eq_div_iff ha' hb']
  constructor
  · intro h
    exact_mod_cast congrArg (fun z : Int => (z : ℚ)) h
  · intro h
    exact_mod_cast h

/-- Model of the C `float` values the sketch can produce: exact
fractions plus the IEEE special values. -/
inductive FloatQ where
  | fin (f : Frac)
  | inf
  | negInf
  | nan
deriving DecidableEq

/-- IEEE negation. -/
def FloatQ.neg : FloatQ → FloatQ
  | fin f => fin f.neg
  | inf => negInf
  | negInf => inf
  | nan => nan

/-- IEEE addition (idealised: no rounding on finite values). -/
def FloatQ.add : FloatQ → FloatQ → FloatQ
  | nan, _ => nan
  | _, nan => nan
  | fin a, fin b => fin (a.add b)
  | inf, negInf => nan
  | negInf, inf => nan
  | inf, _ => inf
  | _, inf => inf
  | negInf, _ => negInf
  | _, negInf => negInf

/-- IEEE subtraction. -/
def FloatQ.sub (a b : FloatQ) : FloatQ := a.add b.neg

/-- IEEE division (idealised on finite values; `x / 0` follows the
sign of `x`, `0 / 0` is `nan`). -/
def FloatQ.div : FloatQ → FloatQ → FloatQ
  | nan, _ => nan
  | _, nan => nan
  | fin a, fin b =>
      if b.num = 0 then
        (if a.num = 0 then nan else if 0 < a.num * a.den then inf else negInf)
      else fin (a.div b)
  | fin _, inf => fin (Frac.ofInt 0)
  | fin _, negInf => fin (Frac.ofInt 0)
  | inf, fin b => if b.num * b.den < 0 then negInf else inf
  | negInf, fin b => if b.num * b.den < 0 then inf else negInf
  | inf, inf => nan
  | inf, negInf => nan
  | negInf, inf => nan
  | negInf, negInf => nan

/-- IEEE `==`: value equality on finite values; `nan` is unequal to
everything, itself included. -/
def FloatQ.feq : FloatQ → FloatQ → Bool
  | nan, _ => false
  | _, nan => false
  | fin a, fin b => a.beqv b
  | inf, inf => true
  | negInf, negInf => true
  | _, _ => false

/-- IEEE `!=` (the comparison the sketch's change detection uses). -/
def FloatQ.ieeeNe (a b : FloatQ) : Bool := !(a.feq b)

/-- Is the value an ordinary (finite) number? -/
def FloatQ.isFinite : FloatQ → Bool
  | fin _ => true
  | _ => false

@[simp] theorem FloatQ.fin_add (a b : Frac) :
    (FloatQ.fin a).add (FloatQ.fin b) = FloatQ.fin (a.add b) := rfl

@[simp] theorem FloatQ.fin_sub (a b : Frac) :
    (FloatQ.fin a).sub (FloatQ.fin b) = FloatQ.fin (a.sub b) := rfl

theorem FloatQ.add_inf_not_finite (x : FloatQ) :
    (x.add FloatQ.inf).isFinite = false := by
  cases x <;> rfl

/-! ## Frequency monitor (source lines 125-146) -/

/-- The window capacity, `const int FrequencyWindowSize = 50;`. -/
def FrequencyWindowSize : Nat := 50

/-- The globals read and written by `broadcastFrequencyPing`:
`FrequencyIndex`, `FrequencySum`, `Frequencies[50]`,
`CurrentAverageFrequency` and `lastNow`. -/
structure FreqState where
  FrequencyIndex : Nat
  FrequencySum : FloatQ
  Frequencies : List FloatQ
  CurrentAverageFrequency : FloatQ
  lastNow : Nat
deriving DecidableEq

/-- C++ zero-initialisation of the frequency globals. -/
def initFreqState : FreqState :=
  { FrequencyIndex := 0
    FrequencySum := .fin (Frac.ofInt 0)
    Frequencies := List.replicate FrequencyWindowSize (.fin (Frac.ofInt 0))
    CurrentAverageFrequency := .fin (Frac.ofInt 0)
    lastNow := 0 }

/-- Model of `broadcastFrequencyPing()` with the global `now` passed in:
`currentFrequency = 1000.0 / (now - lastNow)`, remove the oldest
sample from the sum, store the new one, add it, advance the cursor
modulo the window size, recompute the average, remember `now`. -/
def broadcastFrequencyPing (now : Nat) (s : FreqState) : FreqState :=
  let currentFrequency :=
    (FloatQ.fin (Frac.ofInt 1000)).div (FloatQ.fin (Frac.ofInt (ulSub now s.lastNow)))
  let sum1 := s.FrequencySum.sub (s.Frequencies.getD s.FrequencyIndex (.fin (Frac.ofInt 0)))
  let sum2 := sum1.add currentFrequency
  { FrequencyIndex := (s.FrequencyIndex + 1) % FrequencyWindowSize
    FrequencySum := sum2
    Frequencies := s.Frequencies.set s.FrequencyIndex currentFrequency
    CurrentAverageFrequency := sum2.div (.fin (Frac.ofInt (FrequencyWindowSize : Int)))
    lastNow := now }

/-- Model of `getBroadcastFrequency()`. -/
def getBroadcastFrequency (s : FreqState) : FloatQ := s.CurrentAverageFrequency

/-- Run `broadcastFrequencyPing` over a list of `millis()` readings. -/
def runRecord (ts : List Nat) (s : FreqState) : FreqState :=
  ts.foldl (fun a t => broadcastFrequencyPing t a) s

/-- Float summation of the window contents. -/
def listSumF (l : List FloatQ) : FloatQ := l.foldr FloatQ.add (.fin (Frac.ofInt 0))

/-- All divisors `now - lastNow` along a schedule of readings are
nonzero (`last` is the monitor's current `lastNow`). -/
def divisorsOk (last : Nat) : List Nat → Bool
  | [] => true
  | t :: ts => (ulSub t last != 0) && divisorsOk t ts

/-! ### Value semantics of the frequency window -/

/-- A well-formed finite float: a `fin` with nonzero denominator. -/
def FloatQ.finOk : FloatQ → Bool
  | fin f => f.den != 0
  | _ => false

/-- The rational value of a finite float (`0` on the special values,
which only gets used under `finOk` hypotheses). -/
def fval : FloatQ → ℚ
  | .fin f => f.val
  | _ => 0

/-- Exact sum of the values of the window contents. -/
def sumVals (l : List FloatQ) : ℚ := (l.map fval).sum

theorem fval_fin (f : Frac) : fval (.fin f) = f.val := rfl

theorem finOk_den {x : FloatQ} (h : x.finOk = true) :
    ∃ f, x = FloatQ.fin f ∧ f.den ≠ 0 := by
  cases x with
  | fin f =>
      refine ⟨f, rfl, ?_⟩
      simpa [FloatQ.finOk] using h
  | inf => simp [FloatQ.finOk] at h
  | negInf => simp [FloatQ.finOk] at h
  | nan => simp [FloatQ.finOk] at h

theorem getD_set_self (l : List FloatQ) (i : Nat) (v d : FloatQ) (h : i < l.length) :
    (l.set i v).getD i d = v := by
  induction l generalizing i with
  | nil => simp at h
  | cons a l ih =>
      cases i with
      | zero => rfl
      | succ i => exact ih i (by simpa using h)

theorem sumVals_set (l : List FloatQ) (i : Nat) (v d : FloatQ) (h : i < l.length) :
    sumVals (l.set i v) = sumVals l - fval (l.getD i d) + fval v := by
  induction l generalizing i with
  | nil => simp at h
  | cons a l ih =>
      cases i with
      | zero =>
          simp [sumVals, List.getD_cons_zero]
          ring
      | succ i =>
          have hi : i < l.length := by simpa using h
          have := ih i hi
          simp only [List.set_cons_succ, sumVals, List.map_cons, List.sum_cons,
            List.getD_cons_succ] at this ⊢
          rw [this]
          ring

theorem sumOk_listSumF (l : List FloatQ) (h : ∀ x ∈ l, x.finOk = true) :
    (listSumF l).finOk = true ∧ fval (listSumF l) = sumVals l := by
  induction l with
  | nil =>
      constructor
      · decide
      · simp [listSumF, sumVals, fval, Frac.val, Frac.ofInt]
  | cons a l ih =>
      obtain ⟨hok, hval⟩ := ih (fun x hx => h x (List.mem_cons_of_mem a hx))
      obtain ⟨f, hf, hfden⟩ := finOk_den (h a (List.mem_cons_self a l))
      obtain ⟨g, hg, hgden⟩ := finOk_den hok
      have hstep : listSumF (a :: l) = .fin (f.add g) := by
        simp [listSumF] at hg ⊢
        rw [hf, hg]
        rfl
      constructor
      · rw [hstep]
        simp [FloatQ.finOk, Frac.add]
        exact ⟨hfden, hgden⟩
      · rw [hstep, fval_fin, Frac.val_add f g hfden hgden]
        rw [hg, fval_fin] at hval
        simp [sumVals, hf, fval_fin]
        exact hval

/-- The state invariant of the frequency monitor under nonzero
divisors: the window is full of well-formed finite samples, the
running sum is finite with value the exact sum of the window, the
average is `sum / 50`, and the cursor is in range. -/
def GoodFreq (s : FreqState) : Prop :=
  (∀ x ∈ s.Frequencies, x.finOk = true) ∧
  s.FrequencySum.finOk = true ∧
  fval s.FrequencySum = sumVals s.Frequencies ∧
  (s.CurrentAverageFrequency.finOk = true ∧
    fval s.CurrentAverageFrequency = sumVals s.Frequencies / 50) ∧
  s.Frequencies.length = FrequencyWindowSize ∧
  s.FrequencyIndex < FrequencyWindowSize

theorem goodFreq_init : GoodFreq initFreqState := by
  refine ⟨?_, by decide, ?_, ⟨by decide, ?_⟩, by decide, by decide⟩
  · intro x hx
    rw [List.eq_of_mem_replicate hx]
    decide
  · simp [initFreqState, sumVals, fval, Frac.val, Frac.ofInt, List.map_replicate]
  · simp [initFreqState, sumVals, fval, Frac.val, Frac.ofInt, List.map_replicate]

theorem goodFreq_step (s : FreqState) (now : Nat)
    (hdiv : ulSub now s.lastNow ≠ 0) (hs : GoodFreq s) :
    GoodFreq (broadcastFrequencyPing now s) := by
  obtain ⟨hall, hsumok, hsumval, ⟨havgok, havgval⟩, hlen, hidx⟩ := hs
  have hidx' : s.FrequencyIndex < s.Frequencies.length := by rw [hlen]; exact hidx
  -- the new sample is a well-formed finite value
  have hdivZ : (ulSub now s.lastNow : Int) ≠ 0 := by
    exact_mod_cast hdiv
  have hrate :
      (FloatQ.fin (Frac.ofInt 1000)).div (FloatQ.fin (Frac.ofInt (ulSub now s.lastNow))) =
        FloatQ.fin ((Frac.ofInt 1000).div (Frac.ofInt (ulSub now s.lastNow))) := by
    simp [FloatQ.div, Frac.ofInt, hdivZ]
  set r : Frac := (Frac.ofInt 1000).div (Frac.ofInt (ulSub now s.lastNow)) with hr
  have hrden : r.den ≠ 0 := by
    simp [hr, Frac.div, Frac.ofInt]
    exact hdiv
  -- the old sample and the running sum are well-formed finite values
  have hold : s.Frequencies.getD s.FrequencyIndex (.fin (Frac.ofInt 0)) ∈ s.Frequencies := by
    rw [List.getD_eq_getElem s.Frequencies _ hidx']
    exact List.getElem_mem hidx'
  obtain ⟨g, hg, hgden⟩ := finOk_den (hall _ hold)
  obtain ⟨h, hh, hhden⟩ := finOk_den hsumok
  -- projections of the updated state
  have hFreqs : (broadcastFrequencyPing now s).Frequencies =
      s.Frequencies.set s.FrequencyIndex
        ((FloatQ.fin (Frac.ofInt 1000)).div (FloatQ.fin (Frac.ofInt (ulSub now s.lastNow)))) := rfl
  have hSum : (broadcastFrequencyPing now s).FrequencySum =
      (s.FrequencySum.sub (s.Frequencies.getD s.FrequencyIndex (.fin (Frac.ofInt 0)))).add
        ((FloatQ.fin (Frac.ofInt 1000)).div (FloatQ.fin (Frac.ofInt (ulSub now s.lastNow)))) := rfl
  have hAvg : (broadcastFrequencyPing now s).CurrentAverageFrequency =
      ((broadcastFrequencyPing now s).FrequencySum).div
        (.fin (Frac.ofInt (FrequencyWindowSize : Int))) := rfl
  -- the updated sum
  have hsum2 :
      (s.FrequencySum.sub (s.Frequencies.getD s.FrequencyIndex (.fin (Frac.ofInt 0)))).add
          ((FloatQ.fin (Frac.ofInt 1000)).div (FloatQ.fin (Frac.ofInt (ulSub now s.lastNow)))) =
        FloatQ.fin ((h.sub g).add r) := by
    rw [hrate, hg, hh]
    rfl
  have hsubden : (h.sub g).den ≠ 0 := by
    simp [Frac.sub, Frac.add, Frac.neg]
    exact ⟨hhden, hgden⟩
  have hsum2den : ((h.sub g).add r).den ≠ 0 := by
    simp [Frac.add]
    exact ⟨hsubden, hrden⟩
  have hsum2val : ((h.sub g).add r).val = sumVals s.Frequencies - g.val + r.val := by
    rw [Frac.val_add _ _ hsubden hrden, Frac.val_sub _ _ hhden hgden]
    rw [hh, fval_fin] at hsumval
    rw [hsumval]
  have hsetval := sumVals_set s.Frequencies s.FrequencyIndex
    ((FloatQ.fin (Frac.ofInt 1000)).div (FloatQ.fin (Frac.ofInt (ulSub now s.lastNow))))
    (.fin (Frac.ofInt 0)) hidx'
  rw [hg, hrate, fval_fin, fval_fin] at hsetval
  -- dividing a finite value by the window size
  have h50num : (Frac.ofInt (FrequencyWindowSize : Int)).num ≠ 0 := by decide
  have hdivAvg : ∀ w : Frac,
      (FloatQ.fin w).div (.fin (Frac.ofInt (FrequencyWindowSize : Int))) =
        FloatQ.fin (w.div (Frac.ofInt (FrequencyWindowSize : Int))) := by
    intro w
    simp [FloatQ.div, h50num]
  have h50val : (Frac.ofInt (FrequencyWindowSize : Int)).val = 50 := by
    norm_num [Frac.val, Frac.ofInt, FrequencyWindowSize]
  refine ⟨?_, ?_, ?_, ⟨?_, ?_⟩, ?_, ?_⟩
  · intro x hx
    rw [hFreqs] at hx
    rcases List.mem_or_eq_of_mem_set hx with hx' | rfl
    · exact hall x hx'
    · rw [hrate]
      simp [FloatQ.finOk]
      exact hrden
  · rw [hSum, hsum2]
    simp [FloatQ.finOk]
    exact hsum2den
  · rw [hSum, hsum2, fval_fin, hsum2val, hFreqs, hrate, hsetval]
  · rw [hAvg, hSum, hsum2, hdivAvg]
    have hdne : (((h.sub g).add r).div (Frac.ofInt (FrequencyWindowSize : Int))).den ≠ 0 := by
      show ((h.sub g).add r).den * (Frac.ofInt (FrequencyWindowSize : Int)).num ≠ 0
      exact mul_ne_zero hsum2den h50num
    simp [FloatQ.finOk]
    exact hdne
  · rw [hAvg, hSum, hsum2, hdivAvg, fval_fin,
      Frac.val_div _ _ hsum2den (by decide) (by decide), hsum2val, h50val,
      hFreqs, hrate, hsetval]
  · rw [hFreqs, List.length_set]
    exact hlen
  · show (s.FrequencyIndex + 1) % FrequencyWindowSize < FrequencyWindowSize
    exact Nat.mod_lt _ (by decide)

theorem goodFreq_run (ts : List Nat) : ∀ s : FreqState,
    divisorsOk s.lastNow ts = true → GoodFreq s → GoodFreq (runRecord ts s) := by
  induction ts with
  | nil => intro s _ hs; exact hs
  | cons t ts ih =>
      intro s hok hs
      simp only [divisorsOk, Bool.and_eq_true, bne_iff_ne, ne_eq] at hok
      have hstep := goodFreq_step s t hok.1 hs
      have hlast : (broadcastFrequencyPing t s).lastNow = t := rfl
      exact ih (broadcastFrequencyPing t s) (by rw [hlast]; exact hok.2) hstep

theorem feq_fin (a b : Frac) : FloatQ.feq (.fin a) (.fin b) = a.beqv b := rfl

/-- C7: every `broadcastFrequencyPing` call removes the sample at the
write cursor from the running sum, stores the new instantaneous rate
`1000 / (now - lastNow)` there, adds it to the sum, advances the
cursor modulo the window capacity and reports `sum / capacity`; as
long as every call's divisor `now - lastNow` is nonzero, the invariant
`sum == Σ(buffer)` holds after every call (IEEE value equality), and
the reported average equals `Σ(buffer) / 50`.  (The nonzero-divisor
proviso is forced by `c7_sum_invariant_counterexample`: a zero divisor
puts `+inf` in the window, and overwriting that slot later turns the
running sum into `nan`, breaking the invariant.) -/
theorem c7_sum_invariant (ts : List Nat) (hok : divisorsOk 0 ts = true) :
    FloatQ.feq (runRecord ts initFreqState).FrequencySum
        (listSumF (runRecord ts initFreqState).Frequencies) = true ∧
    FloatQ.feq (runRecord ts initFreqState).CurrentAverageFrequency
        ((listSumF (runRecord ts initFreqState).Frequencies).div
          (.fin (Frac.ofInt (FrequencyWindowSize : Int)))) = true := by
  obtain ⟨hall, hsumok, hsumval, ⟨havgok, havgval⟩, hlen, hidx⟩ :=
    goodFreq_run ts initFreqState hok goodFreq_init
  obtain ⟨h, hh, hhden⟩ := finOk_den hsumok
  obtain ⟨gok, gval⟩ := sumOk_listSumF _ hall
  obtain ⟨g, hg, hgden⟩ := finOk_den gok
  rw [hg, fval_fin] at gval
  rw [hh, fval_fin] at hsumval
  have h50num : (Frac.ofInt (FrequencyWindowSize : Int)).num ≠ 0 := by decide
  have h50val : (Frac.ofInt (FrequencyWindowSize : Int)).val = 50 := by
    norm_num [Frac.val, Frac.ofInt, FrequencyWindowSize]
  constructor
  · rw [hh, hg, feq_fin]
    rw [Frac.beqv_true_iff h g hhden hgden, hsumval, gval]
  · obtain ⟨a, ha, haden⟩ := finOk_den havgok
    rw [ha, fval_fin] at havgval
    have hdg : (FloatQ.fin g).div (.fin (Frac.ofInt (FrequencyWindowSize : Int))) =
        FloatQ.fin (g.div (Frac.ofInt (FrequencyWindowSize : Int))) := by
      simp [FloatQ.div, h50num]
    have hdgden : (g.div (Frac.ofInt (FrequencyWindowSize : Int))).den ≠ 0 := by
      show g.den * (Frac.ofInt (FrequencyWindowSize : Int)).num ≠ 0
      exact mul_ne_zero hgden h50num
    rw [ha, hg, hdg, feq_fin, Frac.beqv_true_iff a _ haden hdgden, havgval,
      Frac.val_div g _ hgden (by decide) h50num, gval, h50val]

/-- Witness for `c7_sum_invariant` at the schedule `[20, 40]`. -/
theorem c7_sum_invariant_witness :
    divisorsOk 0 [20, 40] = true ∧
    (FloatQ.feq (runRecord [20, 40] initFreqState).FrequencySum
        (listSumF (runRecord [20, 40] initFreqState).Frequencies) = true ∧
      FloatQ.feq (runRecord [20, 40] initFreqState).CurrentAverageFrequency
        ((listSumF (runRecord [20, 40] initFreqState).Frequencies).div
          (.fin (Frac.ofInt (FrequencyWindowSize : Int)))) = true) :=
  ⟨by decide, c7_sum_invariant [20, 40] (by decide)⟩

/-- The schedule that refutes the unconditioned C7 invariant:
51 calls at 0, 20, 40, …, 1000 ms.  The first call has
`now = lastNow = 0`, so its sample is `+inf`; the 51st call overwrites
that slot and the running sum becomes `nan`. -/
def c7CexTimes : List Nat := (List.range 51).map (fun k => 20 * k)

/-- C7 counterexample: after the 51 calls of `c7CexTimes` the running
sum is `nan` and is *not* equal (IEEE `==`) to the sum of the window
contents, so the claimed invariant `sum == Σ(buffer)` does not hold
after every call. -/
theorem c7_sum_invariant_counterexample :
    (runRecord c7CexTimes initFreqState).FrequencySum = FloatQ.nan ∧
    FloatQ.feq (runRecord c7CexTimes initFreqState).FrequencySum
      (listSumF (runRecord c7CexTimes initFreqState).Frequencies) = false := by
  constructor
  · decide
  · decide

/-- The schedule of the C8 scenario as written in the spec:
50 calls at 0, 20, 40, …, 980 ms from the initial state. -/
def c8Times : List Nat := (List.range 50).map (fun k => 20 * k)

/-- The amended C8 schedule: 50 calls at 20, 40, …, 1000 ms
(constant 20 ms spacing, with every divisor nonzero). -/
def c8AmendedTimes : List Nat := (List.range 50).map (fun k => 20 * (k + 1))

/-- C8 counterexample: running the spec's schedule (50 calls at
0, 20, …, 980) from the initial state makes the very first call divide
by zero (`now = lastNow = 0`), so the reported average after the 50th
call is `+inf` — not a finite number, hence not 50.0 up to rounding. -/
theorem c8_counterexample :
    (runRecord c8Times initFreqState).CurrentAverageFrequency = FloatQ.inf ∧
    (runRecord c8Times initFreqState).CurrentAverageFrequency.isFinite = false ∧
    FloatQ.feq (runRecord c8Times initFreqState).CurrentAverageFrequency
      (FloatQ.fin (Frac.ofInt 50)) = false := by
  refine ⟨by decide, by decide, by decide⟩

/-- C8 (amended): 50 `record` calls at nowMs = 20, 40, …, 1000
(constant 20 ms spacing) from the initial state yield a reported
average rate of exactly 50.0, since every instantaneous rate is
1000/20 = 50. -/
theorem c8_shifted_schedule_average :
    FloatQ.feq (runRecord c8AmendedTimes initFreqState).CurrentAverageFrequency
      (FloatQ.fin (Frac.ofInt 50)) = true := by
  decide

/-- C10: the division in `broadcastFrequencyPing` is unguarded:
whenever it runs with `now` equal (as a 32-bit value) to the stored
`lastNow` — including the very first invocation, when both are 0 — the
divisor `now - lastNow` is zero, the computed instantaneous rate is
the non-finite value `+inf`, it is stored in the window slot at the
write cursor, and the running sum becomes non-finite. -/
theorem c10_unguarded_division (s : FreqState) (now : Nat)
    (hnow : now % 2 ^ 32 = s.lastNow % 2 ^ 32)
    (hidx : s.FrequencyIndex < s.Frequencies.length) :
    ulSub now s.lastNow = 0 ∧
    (broadcastFrequencyPing now s).Frequencies.getD s.FrequencyIndex (.fin (Frac.ofInt 0)) =
      FloatQ.inf ∧
    (broadcastFrequencyPing now s).FrequencySum.isFinite = false := by
  have hz : ulSub now s.lastNow = 0 := by
    unfold ulSub
    rw [hnow]
    have hle : s.lastNow % 2 ^ 32 ≤ 2 ^ 32 :=
      le_of_lt (Nat.mod_lt _ (by norm_num))
    rw [Nat.add_sub_cancel' hle]
    exact Nat.mod_self _
  have hrate :
      (FloatQ.fin (Frac.ofInt 1000)).div (FloatQ.fin (Frac.ofInt (ulSub now s.lastNow))) =
        FloatQ.inf := by
    rw [hz]
    decide
  refine ⟨hz, ?_, ?_⟩
  · have hFreqs : (broadcastFrequencyPing now s).Frequencies =
        s.Frequencies.set s.FrequencyIndex
          ((FloatQ.fin (Frac.ofInt 1000)).div (FloatQ.fin (Frac.ofInt (ulSub now s.lastNow)))) :=
      rfl
    rw [hFreqs, hrate, getD_set_self _ _ _ _ hidx]
  · show ((s.FrequencySum.sub _).add
        ((FloatQ.fin (Frac.ofInt 1000)).div (FloatQ.fin (Frac.ofInt (ulSub now s.lastNow))))).isFinite
      = false
    rw [hrate]
    exact FloatQ.add_inf_not_finite _

/-- Witness for `c10_unguarded_division` at the very first invocation
(initial state, `now = 0`). -/
theorem c10_unguarded_division_witness :
    (0 % 2 ^ 32 = initFreqState.lastNow % 2 ^ 32) ∧
    initFreqState.FrequencyIndex < initFreqState.Frequencies.length ∧
    (ulSub 0 initFreqState.lastNow = 0 ∧
      (broadcastFrequencyPing 0 initFreqState).Frequencies.getD initFreqState.FrequencyIndex
          (.fin (Frac.ofInt 0)) = FloatQ.inf ∧
      (broadcastFrequencyPing 0 initFreqState).FrequencySum.isFinite = false) :=
  ⟨by decide, by decide, c10_unguarded_division initFreqState 0 (by decide) (by decide)⟩

/-! ## AT response classification (source lines 313-341 and the two
response loops of `sendNbpPackage`, lines 254-299)

All three response loops share the same shape: accumulate incoming
bytes into a response buffer, after each byte set
`foundExpected = response.endsWith(expected)` and
`foundError = response.endsWith("ERROR")`, stop as soon as either
holds, and classify error-first (`if (foundError) … else if
(foundExpected) …`); if the deadline passes with neither token
matched, neither flag is set (a timeout). -/

/-- The check `response.endsWith(tok)` on the byte-list model. -/
def endsWithL (buf tok : List Char) : Bool :=
  decide (tok.length ≤ buf.length) && (buf.drop (buf.length - tok.length) == tok)

/-- The shared error token, `"ERROR"`. -/
def errorToken : List Char := ['E', 'R', 'R', 'O', 'R']

/-- Outcome of one AT exchange. -/
inductive ATOutcome where
  | success
  | protocolError
  | timeout
deriving DecidableEq

/-- The response loop: `buf` is the response accumulated so far, the
third argument the bytes still to arrive before the deadline. -/
def classifyAux (expected : List Char) (buf : List Char) : List Char → ATOutcome
  | [] => .timeout
  | c :: rest =>
      if endsWithL (buf ++ [c]) errorToken then .protocolError
      else if endsWithL (buf ++ [c]) expected then .success
      else classifyAux expected (buf ++ [c]) rest

/-- Classify the bytes that arrive before the deadline. -/
def classify (expected stream : List Char) : ATOutcome := classifyAux expected [] stream

theorem append_take_cons (buf : List Char) (c : Char) (l : List Char) (k : Nat) :
    buf ++ (c :: l).take (k + 1) = (buf ++ [c]) ++ l.take k := by
  simp

theorem take_one_cons (c : Char) (l : List Char) : (c :: l).take 1 = [c] := by simp

theorem classifyAux_protocolError_iff (expected : List Char) :
    ∀ (rest buf : List Char),
      classifyAux expected buf rest = .protocolError ↔
        ∃ k, 0 < k ∧ k ≤ rest.length ∧
          endsWithL (buf ++ rest.take k) errorToken = true ∧
          ∀ j, 0 < j → j < k →
            endsWithL (buf ++ rest.take j) errorToken = false ∧
            endsWithL (buf ++ rest.take j) expected = false := by
  intro rest
  induction rest with
  | nil =>
      intro buf
      simp only [classifyAux, List.length_nil]
      constructor
      · intro h
        exact absurd h (by simp)
      · rintro ⟨k, hk0, hkle, -⟩
        omega
  | cons c rest ih =>
      intro buf
      cases hR : endsWithL (buf ++ [c]) errorToken with
      | true =>
          have hcl : classifyAux expected buf (c :: rest) = .protocolError := by
            simp [classifyAux, hR]
          rw [hcl]
          constructor
          · intro _
            refine ⟨1, Nat.one_pos, by simp, ?_, ?_⟩
            · rw [take_one_cons]
              exact hR
            · intro j hj0 hj1
              omega
          · intro _
            rfl
      | false =>
          cases hE : endsWithL (buf ++ [c]) expected with
          | true =>
              have hcl : classifyAux expected buf (c :: rest) = .success := by
                simp [classifyAux, hR, hE]
              rw [hcl]
              constructor
              · intro h
                exact absurd h (by simp)
              · rintro ⟨k, hk0, hkle, hRk, hmin⟩
                rcases k with - | k
                · omega
                rcases k with - | k
                · rw [take_one_cons] at hRk
                  rw [hR] at hRk
                  exact absurd hRk (by simp)
                · have h1 := hmin 1 Nat.one_pos (by omega)
                  rw [take_one_cons] at h1
                  rw [hE] at h1
                  exact absurd h1.2 (by simp)
          | false =>
              have hcl : classifyAux expected buf (c :: rest) =
                  classifyAux expected (buf ++ [c]) rest := by
                simp [classifyAux, hR, hE]
              rw [hcl, ih (buf ++ [c])]
              constructor
              · rintro ⟨k, hk0, hkle, hRk, hmin⟩
                refine ⟨k + 1, by omega, by simp; omega, ?_, ?_⟩
                · rw [append_take_cons]
                  exact hRk
                · intro j hj0 hjk
                  rcases j with - | j
                  · omega
                  rcases j with - | j
                  · rw [take_one_cons]
                    exact ⟨hR, hE⟩
                  · rw [append_take_cons]
                    exact hmin (j + 1) (by omega) (by omega)
              · rintro ⟨k, hk0, hkle, hRk, hmin⟩
                rcases k with - | k
                · omega
                rcases k with - | k
                · rw [take_one_cons] at hRk
                  rw [hR] at hRk
                  exact absurd hRk (by simp)
                · refine ⟨k + 1, by omega, by simp at hkle; omega, ?_, ?_⟩
                  · rw [← append_take_cons]
                    exact hRk
                  · intro j hj0 hjk
                    rw [← append_take_cons]
                    exact hmin (j + 1) (by omega) (by omega)

theorem classifyAux_success_iff (expected : List Char) :
    ∀ (rest buf : List Char),
      classifyAux expected buf rest = .success ↔
        ∃ k, 0 < k ∧ k ≤ rest.length ∧
          endsWithL (buf ++ rest.take k) expected = true ∧
          endsWithL (buf ++ rest.take k) errorToken = false ∧
          ∀ j, 0 < j → j < k →
            endsWithL (buf ++ rest.take j) errorToken = false ∧
            endsWithL (buf ++ rest.take j) expected = false := by
  intro rest
  induction rest with
  | nil =>
      intro buf
      simp only [classifyAux, List.length_nil]
      constructor
      · intro h
        exact absurd h (by simp)
      · rintro ⟨k, hk0, hkle, -⟩
        omega
  | cons c rest ih =>
      intro buf
      cases hR : endsWithL (buf ++ [c]) errorToken with
      | true =>
          have hcl : classifyAux expected buf (c :: rest) = .protocolError := by
            simp [classifyAux, hR]
          rw [hcl]
          constructor
          · intro h
            exact absurd h (by simp)
          · rintro ⟨k, hk0, hkle, hEk, hRk, hmin⟩
            rcases k with - | k
            · omega
            rcases k with - | k
            · rw [take_one_cons] at hRk
              rw [hR] at hRk
              exact absurd hRk (by simp)
            · have h1 := hmin 1 Nat.one_pos (by omega)
              rw [take_one_cons] at h1
              rw [hR] at h1
              exact absurd h1.1 (by simp)
      | false =>
          cases hE : endsWithL (buf ++ [c]) expected with
          | true =>
              have hcl : classifyAux expected buf (c :: rest) = .success := by
                simp [classifyAux, hR, hE]
              rw [hcl]
              constructor
              · intro _
                refine ⟨1, Nat.one_pos, by simp, ?_, ?_, ?_⟩
                · rw [take_one_cons]
                  exact hE
                · rw [take_one_cons]
                  exact hR
                · intro j hj0 hj1
                  omega
              · intro _
                rfl
          | false =>
              have hcl : classifyAux expected buf (c :: rest) =
                  classifyAux expected (buf ++ [c]) rest := by
                simp [classifyAux, hR, hE]
              rw [hcl, ih (buf ++ [c])]
              constructor
              · rintro ⟨k, hk0, hkle, hEk, hRk, hmin⟩
                refine ⟨k + 1, by omega, by simp; omega, ?_, ?_, ?_⟩
                · rw [append_take_cons]
                  exact hEk
                · rw [append_take_cons]
                  exact hRk
                · intro j hj0 hjk
                  rcases j with - | j
                  · omega
                  rcases j with - | j
                  · rw [take_one_cons]
                    exact ⟨hR, hE⟩
                  · rw [append_take_cons]
                    exact hmin (j + 1) (by omega) (by omega)
              · rintro ⟨k, hk0, hkle, hEk, hRk, hmin⟩
                rcases k with - | k
                · omega
                rcases k with - | k
                · rw [take_one_cons] at hEk
                  rw [hE] at hEk
                  exact absurd hEk (by simp)
                · refine ⟨k + 1, by omega, by simp at hkle; omega, ?_, ?_, ?_⟩
                  · rw [← append_take_cons]
                    exact hEk
                  · rw [← append_take_cons]
                    exact hRk
                  · intro j hj0 hjk
                    rw [← append_take_cons]
                    exact hmin (j + 1) (by omega) (by omega)

theorem classifyAux_timeout_iff (expected : List Char) :
    ∀ (rest buf : List Char),
      classifyAux expected buf rest = .timeout ↔
        ∀ j, 0 < j → j ≤ rest.length →
          endsWithL (buf ++ rest.take j) errorToken = false ∧
          endsWithL (buf ++ rest.take j) expected = false := by
  intro rest
  induction rest with
  | nil =>
      intro buf
      simp only [classifyAux, List.length_nil]
      constructor
      · intro _ j hj0 hjle
        omega
      · intro _
        trivial
  | cons c rest ih =>
      intro buf
      cases hR : endsWithL (buf ++ [c]) errorToken with
      | true =>
          have hcl : classifyAux expected buf (c :: rest) = .protocolError := by
            simp [classifyAux, hR]
          rw [hcl]
          constructor
          · intro h
            exact absurd h (by simp)
          · intro hmin
            have h1 := hmin 1 Nat.one_pos (by simp)
            rw [take_one_cons] at h1
            rw [hR] at h1
            exact absurd h1.1 (by simp)
      | false =>
          cases hE : endsWithL (buf ++ [c]) expected with
          | true =>
              have hcl : classifyAux expected buf (c :: rest) = .success := by
                simp [classifyAux, hR, hE]
              rw [hcl]
              constructor
              · intro h
                exact absurd h (by simp)
              · intro hmin
                have h1 := hmin 1 Nat.one_pos (by simp)
                rw [take_one_cons] at h1
                rw [hE] at h1
                exact absurd h1.2 (by simp)
          | false =>
              have hcl : classifyAux expected buf (c :: rest) =
                  classifyAux expected (buf ++ [c]) rest := by
                simp [classifyAux, hR, hE]
              rw [hcl, ih (buf ++ [c])]
              constructor
              · intro hmin j hj0 hjle
                rcases j with - | j
                · omega
                rcases j with - | j
                · rw [take_one_cons]
                  exact ⟨hR, hE⟩
                · rw [append_take_cons]
                  exact hmin (j + 1) (by omega) (by simp at hjle; omega)
              · intro hmin j hj0 hjle
                rw [← append_take_cons]
                exact hmin (j + 1) (by omega) (by simp; omega)

/-- C5: for every input byte stream, the AT exchange classifies the
outcome by suffix matching on the accumulated response buffer after
each byte: it returns `Success` at the first byte at which the buffer
ends with the expected token (with no earlier or simultaneous `ERROR`
suffix), `ProtocolError` at the first byte at which the buffer ends
with `"ERROR"`, and `Timeout` if no prefix of the stream delivered
before the deadline produces either suffix — so a token embedded
anywhere in the stream is recognised exactly when it lands at the tail
of the buffer at a check. -/
theorem c5_suffix_classification (expected stream : List Char) :
    (classify expected stream = .success ↔
      ∃ k, 0 < k ∧ k ≤ stream.length ∧
        endsWithL (stream.take k) expected = true ∧
        endsWithL (stream.take k) errorToken = false ∧
        ∀ j, 0 < j → j < k →
          endsWithL (stream.take j) errorToken = false ∧
          endsWithL (stream.take j) expected = false) ∧
    (classify expected stream = .protocolError ↔
      ∃ k, 0 < k ∧ k ≤ stream.length ∧
        endsWithL (stream.take k) errorToken = true ∧
        ∀ j, 0 < j → j < k →
          endsWithL (stream.take j) errorToken = false ∧
          endsWithL (stream.take j) expected = false) ∧
    (classify expected stream = .timeout ↔
      ∀ j, 0 < j → j ≤ stream.length →
        endsWithL (stream.take j) errorToken = false ∧
        endsWithL (stream.take j) expected = false) := by
  refine ⟨?_, ?_, ?_⟩
  · have h := classifyAux_success_iff expected stream []
    simpa only [List.nil_append] using h
  · have h := classifyAux_protocolError_iff expected stream []
    simpa only [List.nil_append] using h
  · have h := classifyAux_timeout_iff expected stream []
    simpa only [List.nil_append] using h

/-! ## Device configuration (source lines 27-51) -/

def DEVICE_NAME : String := "My NBP Device"

def DEBUG : Bool := true

def ECHO_PACKAGE : Bool := false

def KEEPALIVE_OFF : Bool := true

def blinkFrequency : Nat := 25

def updateAllFrequency : Nat := 4999

def consecutiveErrorCountLimit : Int := 25

/-! ## Expected tokens of the AT exchanges -/

/-- Phase 1 of `sendNbpPackage` waits for the `">"` prompt. -/
def promptToken : List Char := ['>']

/-- Phase 2 of `sendNbpPackage` waits for `"SEND OK"`. -/
def sendOkToken : List Char := ['S', 'E', 'N', 'D', ' ', 'O', 'K']

/-- The reset command `AT+RST` waits for `"ready"`. -/
def readyToken : List Char := ['r', 'e', 'a', 'd', 'y']

/-- The commands `AT+CIPMUX`/`AT+CIPSERVER` wait for `"OK"`. -/
def okToken : List Char := ['O', 'K']

/-- The wait loop `waitForConnection` watches for the `",CONNECT"` suffix. -/
def connectToken : List Char := [',', 'C', 'O', 'N', 'N', 'E', 'C', 'T']

/-- The wait loop also watches for the `"+IPD"` suffix. -/
def ipdToken : List Char := ['+', 'I', 'P', 'D']

/-! ## NBP packets (source lines 185-245)

A packet is a list of structurally modelled lines; the decimal
rendering of values (`String(value, precision)`) is abstracted into
the stored value plus its print precision. -/

/-- A channel value: a float with its print precision, or an integer. -/
inductive NbpValue where
  | f (value : FloatQ) (precision : Nat)
  | i (value : Int)
deriving DecidableEq

/-- One line of an NBP packet: the `*NBP1,UPDATE…` header with the
elapsed-seconds stamp, a `"<name>","<unit>":<value>` content line, the
`#` terminator, the `@NAME:<device>` identity line, or the
`@KEEPALIVE:OFF` directive. -/
inductive NbpLine where
  | header (updateAll : Bool) (timeSec : Frac)
  | content (channel unit : String) (value : NbpValue)
  | terminator
  | nameLine (device : String)
  | keepAliveOff
deriving DecidableEq

/-- Model of `buildNbpContentLine(String, String, float, int)`. -/
def buildNbpContentLineF (channel unit : String) (value : FloatQ) (precision : Nat) : NbpLine :=
  .content channel unit (.f value precision)

/-- Model of `buildNbpContentLine(String, String, int)`. -/
def buildNbpContentLineI (channel unit : String) (value : Int) : NbpLine :=
  .content channel unit (.i value)

/-! ## Driver state -/

/-- The sketch's global mutable state (besides the frequency monitor's
own globals, nested as `freq`): the update-all timer, the current
`now` reading, the consecutive-error counter, the loop counter, the
three last-sent channel values, and the two status LEDs. -/
structure GlobalState where
  lastUpdateAllMillis : Nat
  nowG : Nat
  consecutiveErrorCount : Int
  loopCount : Nat
  freq : FreqState
  lastBroadcastFrequency : FloatQ
  lastRandomFloat : Frac
  lastRandomInt : Int
  redOn : Bool
  greenOn : Bool
deriving DecidableEq

/-- C++ zero-initialisation of the globals (`now = millis()` at boot
is 0). -/
def initGlobal : GlobalState :=
  { lastUpdateAllMillis := 0
    nowG := 0
    consecutiveErrorCount := 0
    loopCount := 0
    freq := initFreqState
    lastBroadcastFrequency := .fin (Frac.ofInt 0)
    lastRandomFloat := Frac.ofInt 0
    lastRandomInt := 0
    redOn := false
    greenOn := false }

/-- Model of `GetUpdateNbpPackage(bool updateAll)` (source lines 202-245) with
the two `random(...)` samples passed in.  Note the faithful modelling
of source lines 218 and 224: `lastRandomFloat != currentRandomFloat;`
and `lastRandomInt != currentRandomInt;` are bare comparison
expressions, not assignments, so only `lastBroadcastFrequency` is ever
updated. -/
def GetUpdateNbpPackage (updateAll : Bool) (s : GlobalState)
    (currentRandomFloat : Frac) (currentRandomInt : Int) : List NbpLine × GlobalState :=
  let currentBroadcastFrequency := getBroadcastFrequency s.freq
  let headerLine := NbpLine.header updateAll ((Frac.ofInt s.nowG).div (Frac.ofInt 1000))
  let freqIncluded : Bool :=
    updateAll || FloatQ.ieeeNe s.lastBroadcastFrequency currentBroadcastFrequency
  let s1 := if freqIncluded then
      { s with lastBroadcastFrequency := currentBroadcastFrequency } else s
  let lines1 := if freqIncluded then
      [buildNbpContentLineF "NBP Freq." "Hz" currentBroadcastFrequency 1] else []
  let floatIncluded : Bool := updateAll || !(s.lastRandomFloat.beqv currentRandomFloat)
  let lines2 := if floatIncluded then
      [buildNbpContentLineF "Random Float" "Num" (.fin currentRandomFloat) 1] else []
  let intIncluded : Bool := updateAll || !(s.lastRandomInt == currentRandomInt)
  let lines3 := if intIncluded then
      [buildNbpContentLineI "Random Int" "Num" currentRandomInt] else []
  let lines4 := [buildNbpContentLineI "Pkg. Count" "Num" (Int.ofNat s.loopCount)]
  let tail := if updateAll then
      [NbpLine.terminator, NbpLine.nameLine DEVICE_NAME] else [NbpLine.terminator]
  (headerLine :: (lines1 ++ lines2 ++ lines3 ++ lines4 ++ tail), s1)

/-- Model of `sendNbpPackage(String nbpPackage)` (source lines 248-311): issue
`AT+CIPSEND` and wait for the `">"` prompt; on the prompt, stream the
payload, zero the consecutive-error counter and wait for `"SEND OK"`;
on an `ERROR` suffix in phase 1, light the red LED and increment the
counter; on an `ERROR` suffix in phase 2, light the red LED only; on a
timeout, fall through unchanged.  Returns the new state and the
payload actually streamed (if phase 1 succeeded). -/
def sendNbpPackage (nbpPackage : List NbpLine) (s : GlobalState)
    (stream1 stream2 : List Char) : GlobalState × Option (List NbpLine) :=
  match classify promptToken stream1 with
  | .protocolError =>
      ({ s with redOn := true, consecutiveErrorCount := s.consecutiveErrorCount + 1 }, none)
  | .success =>
      let s1 := { s with consecutiveErrorCount := 0 }
      match classify sendOkToken stream2 with
      | .protocolError => ({ s1 with redOn := true }, some nbpPackage)
      | _ => (s1, some nbpPackage)
  | .timeout => (s, none)

/-- Does the connection-wait polling loop ever see a `",CONNECT"` or
`"+IPD"` suffix in the byte stream?  (It polls with no deadline.) -/
def findsMarkerAux (buf : List Char) : List Char → Bool
  | [] => false
  | c :: rest =>
      if endsWithL (buf ++ [c]) connectToken || endsWithL (buf ++ [c]) ipdToken then true
      else findsMarkerAux (buf ++ [c]) rest

/-- The `"@NAME:" + DEVICE_NAME + "\n@KEEPALIVE:OFF\n"` control packet. -/
def keepalivePackage : List NbpLine := [NbpLine.nameLine DEVICE_NAME, NbpLine.keepAliveOff]

/-- Model of `waitForConnection()` (source lines 87-123): poll the serial bytes
until a `",CONNECT"`/`"+IPD"` suffix appears (never returning if it
does not — `none`), then, with `KEEPALIVE_OFF` enabled, send the
keepalive control packet through `sendNbpPackage` (with its own two
response streams) and finally switch the red LED off. -/
def waitForConnection (s : GlobalState) (conn k1 k2 : List Char) : Option GlobalState :=
  if findsMarkerAux [] conn then
    let s1 := if KEEPALIVE_OFF then (sendNbpPackage keepalivePackage s k1 k2).1 else s
    some { s1 with redOn := false }
  else none

/-- Model of `sendDataUntil(String, int, String)` (source lines 313-341): send
the command, classify the response, and on an `ERROR` suffix light the
red LED; success and timeout leave the state untouched. -/
def sendDataUntil (s : GlobalState) (_command : String) (_timeoutMs : Nat)
    (expected stream : List Char) : GlobalState × ATOutcome :=
  let o := classify expected stream
  (if o = .protocolError then { s with redOn := true } else s, o)

/-- Record of one boot-time AT command. -/
structure BootCall where
  command : String
  timeoutMs : Nat
  expected : List Char
  outcome : ATOutcome
deriving DecidableEq

/-- Model of `setup()` (source lines 53-85): light both LEDs, issue the three
AT commands in order through `sendDataUntil` — unconditionally, their
outcomes gate nothing — then switch the LEDs off and enter
`waitForConnection`.  Returns the issued calls with their outcomes and
the state `waitForConnection` produces. -/
def setup (s : GlobalState) (env1 env2 env3 conn k1 k2 : List Char) :
    List BootCall × Option GlobalState :=
  let sA := { s with redOn := true, greenOn := true }
  let r1 := sendDataUntil sA "AT+RST\r\n" 1250 readyToken env1
  let r2 := sendDataUntil r1.1 "AT+CIPMUX=1\r\n" 1250 okToken env2
  let r3 := sendDataUntil r2.1 "AT+CIPSERVER=1,80\r\n" 1250 okToken env3
  let sB := { r3.1 with redOn := false, greenOn := false }
  ([{ command := "AT+RST\r\n", timeoutMs := 1250, expected := readyToken, outcome := r1.2 },
    { command := "AT+CIPMUX=1\r\n", timeoutMs := 1250, expected := okToken, outcome := r2.2 },
    { command := "AT+CIPSERVER=1,80\r\n", timeoutMs := 1250, expected := okToken, outcome := r3.2 }],
   waitForConnection sB conn k1 k2)

/-- The start of a `loop()` iteration (source lines 150-153): read
`millis()` into `now`, bump `loopCount`, feed the frequency monitor.
(None of these touch `consecutiveErrorCount` or the last-sent
values.) -/
def loopEntry (s : GlobalState) (nowMs : Nat) : GlobalState :=
  { s with nowG := nowMs, loopCount := s.loopCount + 1,
           freq := broadcastFrequencyPing nowMs s.freq }

/-- The rest of a `loop()` iteration after the error-threshold check
(source lines 163-182): blink the green LED on the blink cadence,
build and send the UPDATEALL packet when the update-all interval has
elapsed (advancing `lastUpdateAllMillis` by the interval) and the
delta UPDATE packet otherwise, and clear both LEDs on the blink
cadence.  `entered` records whether this iteration re-entered
`waitForConnection`. -/
def loopRest (t : GlobalState) (entered : Bool) (str1 str2 : List Char)
    (currentRandomFloat : Frac) (currentRandomInt : Int) : GlobalState × Bool :=
  let s2 := if t.loopCount % blinkFrequency == 0 then { t with greenOn := true } else t
  let s3 :=
    if updateAllFrequency ≤ ulSub s2.nowG s2.lastUpdateAllMillis then
      let r := GetUpdateNbpPackage true s2 currentRandomFloat currentRandomInt
      let u := (sendNbpPackage r.1 r.2 str1 str2).1
      { u with lastUpdateAllMillis := u.lastUpdateAllMillis + updateAllFrequency }
    else
      let r := GetUpdateNbpPackage false s2 currentRandomFloat currentRandomInt
      (sendNbpPackage r.1 r.2 str1 str2).1
  let s4 := if s3.loopCount % blinkFrequency == 0 then
      { s3 with redOn := false, greenOn := false } else s3
  (s4, entered)

/-- One iteration of `loop()` (source lines 149-183): after
`loopEntry`, re-enter `waitForConnection` iff the consecutive-error
counter has reached its limit (the counter read at the check equals
its value at loop entry, since `loopEntry` does not touch it), then
run `loopRest`.  The result is `none` when the re-entered wait never
sees a connection marker. -/
def loop (s : GlobalState) (nowMs : Nat) (conn k1 k2 str1 str2 : List Char)
    (currentRandomFloat : Frac) (currentRandomInt : Int) : Option (GlobalState × Bool) :=
  let s1 := loopEntry s nowMs
  if consecutiveErrorCountLimit ≤ s1.consecutiveErrorCount then
    match waitForConnection s1 conn k1 k2 with
    | none => none
    | some t => some (loopRest t true str1 str2 currentRandomFloat currentRandomInt)
  else some (loopRest s1 false str1 str2 currentRandomFloat currentRandomInt)

/-! ## Claims about the two-phase send (C2, C3) -/

/-- C2 (amended): a phase-1 `ProtocolError` increments the
consecutive-error counter by one, emits an error event (red LED on)
and never streams the payload; on phase-1 success the counter is reset
to zero *regardless of phase 2's outcome* and the payload is streamed,
and a phase-2 `ProtocolError` emits an error event but leaves the
counter at the zero the phase-1 success just set; a phase-1 timeout
leaves the state untouched.  (The original claim — that a
`ProtocolError` in *either* phase increments the counter, and that the
counter is reset only when *both* phases succeed — is refuted by
`c2_counterexample`.) -/
theorem c2_error_accounting (pkg : List NbpLine) (s : GlobalState) (str1 str2 : List Char) :
    (classify promptToken str1 = .protocolError →
      (sendNbpPackage pkg s str1 str2).1.consecutiveErrorCount = s.consecutiveErrorCount + 1 ∧
      (sendNbpPackage pkg s str1 str2).1.redOn = true ∧
      (sendNbpPackage pkg s str1 str2).2 = none) ∧
    (classify promptToken str1 = .success →
      (sendNbpPackage pkg s str1 str2).1.consecutiveErrorCount = 0 ∧
      (sendNbpPackage pkg s str1 str2).2 = some pkg ∧
      (classify sendOkToken str2 = .protocolError →
        (sendNbpPackage pkg s str1 str2).1.redOn = true)) ∧
    (classify promptToken str1 = .timeout →
      sendNbpPackage pkg s str1 str2 = (s, none)) := by
  refine ⟨?_, ?_, ?_⟩
  · intro h1
    simp [sendNbpPackage, h1]
  · intro h1
    cases h2 : classify sendOkToken str2 <;> simp [sendNbpPackage, h1, h2]
  · intro h1
    simp [sendNbpPackage, h1]

/-- Witness for `c2_error_accounting` at a phase-1 `ERROR` response. -/
theorem c2_error_accounting_witness :
    (sendNbpPackage [] initGlobal errorToken []).1.consecutiveErrorCount =
        initGlobal.consecutiveErrorCount + 1 ∧
    (sendNbpPackage [] initGlobal errorToken []).1.redOn = true ∧
    (sendNbpPackage [] initGlobal errorToken []).2 = none :=
  (c2_error_accounting [] initGlobal errorToken []).1 (by decide)

/-- A driver state whose consecutive-error counter is 3. -/
def errCountThree : GlobalState := { initGlobal with consecutiveErrorCount := 3 }

/-- C2 counterexample: phase 1 delivers the `">"` prompt and phase 2
delivers `ERROR` — a `ProtocolError` in the second phase.  The claim
says the counter afterwards equals its previous value plus one (3 + 1);
in fact the phase-1 success already reset it and the phase-2 error
does not increment it, so it is 0. -/
theorem c2_counterexample :
    classify sendOkToken errorToken = .protocolError ∧
    (sendNbpPackage [] errCountThree promptToken errorToken).1.redOn = true ∧
    (sendNbpPackage [] errCountThree promptToken errorToken).1.consecutiveErrorCount = 0 ∧
    ¬((sendNbpPackage [] errCountThree promptToken errorToken).1.consecutiveErrorCount =
        errCountThree.consecutiveErrorCount + 1) := by
  refine ⟨by decide, by decide, by decide, by decide⟩

/-- C3 (amended): a phase-1 `Timeout` (no token matched before the
deadline) leaves the driver state — in particular the
consecutive-error counter — completely unchanged and streams nothing.
Unlike a `ProtocolError`, it does not increment the counter, so a run
of timeouts alone never reaches the reconnection threshold.  (The
original claim that a timeout counts like a `ProtocolError` is refuted
by `c3_counterexample`.) -/
theorem c3_timeout_effect (pkg : List NbpLine) (s : GlobalState) (str1 str2 : List Char)
    (h : classify promptToken str1 = .timeout) :
    sendNbpPackage pkg s str1 str2 = (s, none) := by
  simp [sendNbpPackage, h]

/-- Witness for `c3_timeout_effect` on an empty response stream. -/
theorem c3_timeout_effect_witness :
    sendNbpPackage [] initGlobal [] [] = (initGlobal, none) :=
  c3_timeout_effect [] initGlobal [] [] (by decide)

/-- C3 counterexample: a send attempt whose response stream delivers
no token (a `Timeout`) leaves the counter at 3 instead of
incrementing it to 4 as the claim requires. -/
theorem c3_counterexample :
    classify promptToken ([] : List Char) = .timeout ∧
    (sendNbpPackage [] errCountThree [] []).1.consecutiveErrorCount = 3 ∧
    ¬((sendNbpPackage [] errCountThree [] []).1.consecutiveErrorCount =
        errCountThree.consecutiveErrorCount + 1) := by
  refine ⟨by decide, by decide, by decide⟩

/-! ## Claims about the packet builder (C4, C6) -/

/-- C4 (code bug, evaluated at the failing input): a delta build from
the initial state with sampled Random Float = 5 and Random Int = 7
emits content lines for both channels (their sampled values differ
from the stored last-sent values 0), yet the stored last-sent values
remain 0 afterwards — source lines 218/224 are the no-op comparisons
`lastRandomFloat != currentRandomFloat;` / `lastRandomInt !=
currentRandomInt;` instead of assignments, so the "update the stored
last-sent value after inclusion" step never happens for these two
channels. -/
theorem c4_noop_update_eval :
    buildNbpContentLineF "Random Float" "Num" (.fin (Frac.ofInt 5)) 1 ∈
        (GetUpdateNbpPackage false initGlobal (Frac.ofInt 5) 7).1 ∧
    buildNbpContentLineI "Random Int" "Num" 7 ∈
        (GetUpdateNbpPackage false initGlobal (Frac.ofInt 5) 7).1 ∧
    (GetUpdateNbpPackage false initGlobal (Frac.ofInt 5) 7).2.lastRandomFloat = Frac.ofInt 0 ∧
    (GetUpdateNbpPackage false initGlobal (Frac.ofInt 5) 7).2.lastRandomInt = 0 := by
  refine ⟨by decide, by decide, by decide, by decide⟩

/-- C6: a full-snapshot build always produces exactly the header, one
content line for each of the four configured channels (broadcast
frequency, random float, random integer, packet count) in that order,
the terminator, and the `@NAME:` device-identity line after the
terminator — regardless of whether any value changed; a delta build
never contains the identity line. -/
theorem c6_full_snapshot_shape (s : GlobalState) (crf : Frac) (cri : Int) :
    (GetUpdateNbpPackage true s crf cri).1 =
      [NbpLine.header true ((Frac.ofInt s.nowG).div (Frac.ofInt 1000)),
       buildNbpContentLineF "NBP Freq." "Hz" (getBroadcastFrequency s.freq) 1,
       buildNbpContentLineF "Random Float" "Num" (.fin crf) 1,
       buildNbpContentLineI "Random Int" "Num" cri,
       buildNbpContentLineI "Pkg. Count" "Num" (Int.ofNat s.loopCount),
       NbpLine.terminator,
       NbpLine.nameLine DEVICE_NAME] ∧
    NbpLine.nameLine DEVICE_NAME ∉ (GetUpdateNbpPackage false s crf cri).1 := by
  constructor
  · simp [GetUpdateNbpPackage]
  · cases hb1 : FloatQ.ieeeNe s.lastBroadcastFrequency (getBroadcastFrequency s.freq) <;>
      cases hb2 : s.lastRandomFloat.beqv crf <;>
        cases hb3 : s.lastRandomInt == cri <;>
          simp [GetUpdateNbpPackage, hb1, hb2, hb3,
            buildNbpContentLineF, buildNbpContentLineI]

/-! ## Claims about boot and the control loop (C9, C1) -/

/-- C9: boot issues exactly three AT commands, in order — reset
(expected token `"ready"`), multiplexed mode (expected `"OK"`), server
start (expected `"OK"`) — each with its 1250 ms deadline; a
`ProtocolError` or `Timeout` on any of them gates nothing (the
recorded outcomes are exactly the three classifications, and the call
list is the same for every environment), and boot always ends by
entering `waitForConnection`. -/
theorem c9_boot_sequence (s : GlobalState) (env1 env2 env3 conn k1 k2 : List Char) :
    (setup s env1 env2 env3 conn k1 k2).1.map (fun c => (c.command, c.timeoutMs, c.expected)) =
      [("AT+RST\r\n", 1250, readyToken),
       ("AT+CIPMUX=1\r\n", 1250, okToken),
       ("AT+CIPSERVER=1,80\r\n", 1250, okToken)] ∧
    (setup s env1 env2 env3 conn k1 k2).1.map (fun c => c.outcome) =
      [classify readyToken env1, classify okToken env2, classify okToken env3] ∧
    (∃ t : GlobalState, (setup s env1 env2 env3 conn k1 k2).2 = waitForConnection t conn k1 k2) := by
  refine ⟨rfl, rfl, ⟨_, rfl⟩⟩

/-- C1 (amended): a loop iteration re-enters `waitForConnection` iff
the consecutive-error counter has reached the limit 25 (no transition
occurs below the threshold), but re-entering does *not* reset the
per-connection state: `waitForConnection` leaves all three last-sent
values untouched, and the counter is changed only by the keepalive
control packet it sends on the new connection — reset to zero if that
send's first phase succeeds, incremented on a phase-1 `ProtocolError`,
unchanged on a timeout.  (The original claim that the counter and the
last-sent values are reset to their initial values is refuted by
`c1_counterexample`.) -/
theorem c1_threshold_reentry (s : GlobalState) (nowMs : Nat)
    (conn k1 k2 str1 str2 : List Char) (crf : Frac) (cri : Int) :
    (s.consecutiveErrorCount < consecutiveErrorCountLimit →
      (loop s nowMs conn k1 k2 str1 str2 crf cri).map (fun r => r.2) = some false) ∧
    (consecutiveErrorCountLimit ≤ s.consecutiveErrorCount →
      ∀ r, loop s nowMs conn k1 k2 str1 str2 crf cri = some r → r.2 = true) ∧
    (∀ t, waitForConnection s conn k1 k2 = some t →
      t.lastBroadcastFrequency = s.lastBroadcastFrequency ∧
      t.lastRandomFloat = s.lastRandomFloat ∧
      t.lastRandomInt = s.lastRandomInt ∧
      t.consecutiveErrorCount =
        (match classify promptToken k1 with
         | .protocolError => s.consecutiveErrorCount + 1
         | .success => 0
         | .timeout => s.consecutiveErrorCount)) := by
  refine ⟨?_, ?_, ?_⟩
  · intro hlt
    have hnot : ¬consecutiveErrorCountLimit ≤ s.consecutiveErrorCount := not_le.mpr hlt
    simp [loop, loopEntry, loopRest, hnot]
  · intro hge r hr
    simp only [loop, loopEntry] at hr
    rw [if_pos hge] at hr
    split at hr
    · exact absurd hr (by simp)
    · simp only [Option.some.injEq] at hr
      rw [← hr]
      rfl
  · intro t ht
    unfold waitForConnection at ht
    split at ht
    · simp only [KEEPALIVE_OFF, if_true, Option.some.injEq] at ht
      cases h1 : classify promptToken k1 with
      | protocolError =>
          simp [sendNbpPackage, h1] at ht
          rw [← ht]
          simp
      | success =>
          cases h2 : classify sendOkToken k2 <;>
            · simp [sendNbpPackage, h1, h2] at ht
              rw [← ht]
              simp
      | timeout =>
          simp [sendNbpPackage, h1] at ht
          rw [← ht]
          simp
    · exact absurd ht (by simp)

/-- Witness for `c1_threshold_reentry`: a fresh driver (counter 0)
does not re-enter `waitForConnection`. -/
theorem c1_threshold_reentry_witness :
    (loop initGlobal 100 [] [] [] [] [] (Frac.ofInt 1) 1).map (fun r => r.2) = some false :=
  (c1_threshold_reentry initGlobal 100 [] [] [] [] [] (Frac.ofInt 1) 1).1 (by decide)

/-- A driver state at the error threshold with non-initial last-sent
values (last frequency 5, last random float 7, last random int 9). -/
def c1State : GlobalState :=
  { initGlobal with
    consecutiveErrorCount := 25
    lastBroadcastFrequency := .fin (Frac.ofInt 5)
    lastRandomFloat := Frac.ofInt 7
    lastRandomInt := 9 }

/-- C1 counterexample: an iteration at the threshold (counter 25)
whose connection wait sees `",CONNECT"` and whose keepalive send times
out.  The iteration does re-enter `waitingForConnection` (flag
`true`), but afterwards the counter is still 25 — not reset to 0 — and
the random-float/int last-sent values are still 7 and 9 — not reset to
their initial value 0 — contradicting the claimed reset of the
per-connection state. -/
theorem c1_counterexample :
    (loop c1State 2000 connectToken [] [] [] [] (Frac.ofInt 1) 1).map
        (fun r => (r.2, r.1.consecutiveErrorCount, r.1.lastRandomFloat, r.1.lastRandomInt)) =
      some (true, 25, Frac.ofInt 7, 9) ∧
    (25 : Int) ≠ 0 ∧ Frac.ofInt 7 ≠ Frac.ofInt 0 ∧ (9 : Int) ≠ 0 := by
  refine ⟨by decide, by decide, by decide, by decide⟩

end NbpDriver
